import Mathlib

/-!
# Verification of the workflow-inference-compiler discovery & sanitization core

Shallow embedding of the two source files:
* `preprocessjson.py` — the recursive JSON-schema sanitizer `remove_null_types`;
* `src/wic/plugins.py` — the tool-catalog builder `get_tools_cwl`, the
  workflow-catalog builder `get_yml_paths`, and the validation wrapper
  `validate_cwl`.

External collaborators (pathlib `Path(...).stem`, `os.path.abspath`,
`glob.glob`, `yaml.safe_load`) are modelled as opaque function parameters,
matching the spec's treatment of them as thin I/O wrappers.  The filesystem
side effects (`mkdir`, `copy_config_files`) have no bearing on the returned
catalogs and are not modelled.
-/

set_option autoImplicit false
set_option linter.unusedVariables false

namespace Wic

/-- A Python value as it arises from `json.load` / `yaml.safe_load`:
`None`, booleans, integers, strings, lists and string-keyed dicts.
A dict is modelled as an association list with unique keys (Python dicts
preserve insertion order and keep one value per key). -/
inductive PyVal where
  | none : PyVal
  | boolv : Bool → PyVal
  | intv : Int → PyVal
  | strv : String → PyVal
  | list : List PyVal → PyVal
  | dict : List (String × PyVal) → PyVal

mutual

/-- Structural (Python `==`) equality test on `PyVal`. -/
def PyVal.beq : PyVal → PyVal → Bool
  | .none, .none => true
  | .boolv a, .boolv b => a == b
  | .intv a, .intv b => a == b
  | .strv a, .strv b => a == b
  | .list xs, .list ys => PyVal.beqList xs ys
  | .dict xs, .dict ys => PyVal.beqDict xs ys
  | _, _ => false

/-- Elementwise equality of `PyVal` lists. -/
def PyVal.beqList : List PyVal → List PyVal → Bool
  | [], [] => true
  | x :: xs, y :: ys => PyVal.beq x y && PyVal.beqList xs ys
  | _, _ => false

/-- Entrywise equality of association lists of `PyVal`s. -/
def PyVal.beqDict : List (String × PyVal) → List (String × PyVal) → Bool
  | [], [] => true
  | (k, v) :: xs, (k', v') :: ys => k == k' && PyVal.beq v v' && PyVal.beqDict xs ys
  | _, _ => false

end

/-- Structural induction principle for `PyVal` that hands the inductive
hypothesis to every member of a list node and every value of a dict node. -/
theorem PyVal.ind (P : PyVal → Prop)
    (hnone : P .none) (hbool : ∀ b, P (.boolv b)) (hint : ∀ n, P (.intv n))
    (hstr : ∀ s, P (.strv s))
    (hlist : ∀ xs, (∀ x ∈ xs, P x) → P (.list xs))
    (hdict : ∀ kvs, (∀ kv ∈ kvs, P kv.2) → P (.dict kvs)) :
    ∀ v, P v
  | .none => hnone
  | .boolv b => hbool b
  | .intv n => hint n
  | .strv s => hstr s
  | .list xs => hlist xs (fun x hx =>
      PyVal.ind P hnone hbool hint hstr hlist hdict x)
  | .dict kvs => hdict kvs (fun kv hkv =>
      PyVal.ind P hnone hbool hint hstr hlist hdict kv.2)
termination_by v => sizeOf v
decreasing_by
  · have := List.sizeOf_lt_of_mem hx
    simp only [PyVal.list.sizeOf_spec]
    omega
  · have h1 := List.sizeOf_lt_of_mem hkv
    obtain ⟨k, v⟩ := kv
    simp only [PyVal.dict.sizeOf_spec, Prod.mk.sizeOf_spec] at h1 ⊢
    omega

theorem PyVal.beqList_iff (xs : List PyVal)
    (ih : ∀ x ∈ xs, ∀ b, PyVal.beq x b = true ↔ x = b) :
    ∀ ys, PyVal.beqList xs ys = true ↔ xs = ys := by
  induction xs with
  | nil => intro ys; cases ys <;> simp [PyVal.beqList]
  | cons x xs ihl =>
    intro ys
    cases ys with
    | nil => simp [PyVal.beqList]
    | cons y ys =>
      have hx := ih x (by simp) y
      have hrest := ihl (fun z hz b => ih z (by simp [hz]) b) ys
      simp [PyVal.beqList, hx, hrest]

theorem PyVal.beqDict_iff (xs : List (String × PyVal))
    (ih : ∀ kv ∈ xs, ∀ b, PyVal.beq kv.2 b = true ↔ kv.2 = b) :
    ∀ ys, PyVal.beqDict xs ys = true ↔ xs = ys := by
  induction xs with
  | nil => intro ys; cases ys <;> simp [PyVal.beqDict]
  | cons kv xs ihl =>
    intro ys
    obtain ⟨k, v⟩ := kv
    cases ys with
    | nil => simp [PyVal.beqDict]
    | cons kv' ys =>
      obtain ⟨k', v'⟩ := kv'
      have hv := ih (k, v) (by simp) v'
      have hrest := ihl (fun z hz b => ih z (by simp [hz]) b) ys
      simp [PyVal.beqDict, hv, hrest]

theorem PyVal.beq_iff (a : PyVal) : ∀ b, PyVal.beq a b = true ↔ a = b := by
  induction a using PyVal.ind with
  | hnone => intro b; cases b <;> simp [PyVal.beq]
  | hbool x => intro b; cases b <;> simp [PyVal.beq]
  | hint x => intro b; cases b <;> simp [PyVal.beq]
  | hstr x => intro b; cases b <;> simp [PyVal.beq]
  | hlist xs ih =>
    intro b
    cases b <;> simp [PyVal.beq]
    exact PyVal.beqList_iff xs ih _
  | hdict kvs ih =>
    intro b
    cases b <;> simp [PyVal.beq]
    exact PyVal.beqDict_iff kvs ih _

instance : DecidableEq PyVal := fun a b => decidable_of_iff _ (PyVal.beq_iff a b)

/-- Python dict lookup `d[k]` / `d.get(k)` on an association list:
the first entry with the given key. -/
def pyLookup {κ : Type} {β : Type} [DecidableEq κ] (k : κ) : List (κ × β) → Option β
  | [] => Option.none
  | p :: rest => if p.1 = k then some p.2 else pyLookup k rest

/-- Python dict assignment `d[k] = v`: overwrite in place if the key is
present (keeping its position), otherwise append a new entry. -/
def pyDictInsert {κ : Type} {β : Type} [DecidableEq κ]
    (m : List (κ × β)) (k : κ) (v : β) : List (κ × β) :=
  if k ∈ m.map Prod.fst then m.map (fun p => if p.1 = k then (k, v) else p)
  else m ++ [(k, v)]

mutual

/-- Embedding of `remove_null_types` from `preprocessjson.py`:
if the node is a dict with `"type"` mapped to exactly `["null"]`, return
`None`; otherwise recurse into dict values (keys kept) and list elements
(elements whose result is `None` are dropped); scalars are returned as-is. -/
def remove_null_types : PyVal → PyVal
  | .dict kvs =>
      if pyLookup "type" kvs = some (PyVal.list [PyVal.strv "null"]) then PyVal.none
      else PyVal.dict (remove_null_types_dict kvs)
  | .list xs => PyVal.list (remove_null_types_list xs)
  | v => v

/-- The dict comprehension `{k: remove_null_types(v) for k, v in schema.items()}`. -/
def remove_null_types_dict : List (String × PyVal) → List (String × PyVal)
  | [] => []
  | kv :: rest => (kv.1, remove_null_types kv.2) :: remove_null_types_dict rest

/-- The list comprehension
`[remove_null_types(item) for item in schema if remove_null_types(item) is not None]`. -/
def remove_null_types_list : List PyVal → List PyVal
  | [] => []
  | x :: rest =>
      if remove_null_types x = PyVal.none then remove_null_types_list rest
      else remove_null_types x :: remove_null_types_list rest

end

/-! ## Association-list lemmas (Python dict semantics) -/

section AssocLemmas

variable {κ β : Type} [DecidableEq κ]

theorem pyLookup_map_overwrite (k k' : κ) (v : β) (h : k' ≠ k) :
    ∀ m : List (κ × β),
      pyLookup k' (m.map (fun p => if p.1 = k then (k, v) else p)) = pyLookup k' m := by
  intro m
  induction m with
  | nil => rfl
  | cons p rest ih =>
    by_cases hp : p.1 = k
    · simp [pyLookup, hp, Ne.symm h, ih]
    · by_cases hk' : p.1 = k'
      · simp [pyLookup, hp, hk', h]
      · simp [pyLookup, hp, hk', ih]

theorem pyLookup_map_overwrite_mem (k : κ) (v : β) :
    ∀ m : List (κ × β), k ∈ m.map Prod.fst →
      pyLookup k (m.map (fun p => if p.1 = k then (k, v) else p)) = some v := by
  intro m
  induction m with
  | nil => intro h; simp at h
  | cons p rest ih =>
    intro h
    by_cases hp : p.1 = k
    · simp [pyLookup, hp]
    · have hrest : k ∈ rest.map Prod.fst := by
        rw [List.map_cons] at h
        rcases List.mem_cons.mp h with h1 | h1
        · exact absurd h1.symm hp
        · exact h1
      simp [pyLookup, hp, ih hrest]

theorem pyLookup_append_not_mem (k : κ) (v : β) :
    ∀ m : List (κ × β), k ∉ m.map Prod.fst → pyLookup k (m ++ [(k, v)]) = some v := by
  intro m
  induction m with
  | nil => intro _; simp [pyLookup]
  | cons p rest ih =>
    intro h
    have hp : ¬ p.1 = k := fun hk => h (by simp [hk])
    have hrest : k ∉ rest.map Prod.fst := fun hk => h (by simp [hk])
    simp [pyLookup, hp, ih hrest]

theorem pyLookup_append_singleton_ne (k k' : κ) (v : β) (h : k' ≠ k) :
    ∀ m : List (κ × β), pyLookup k' (m ++ [(k, v)]) = pyLookup k' m := by
  intro m
  induction m with
  | nil => simp [pyLookup, Ne.symm h]
  | cons p rest ih =>
    by_cases hp : p.1 = k'
    · simp [pyLookup, hp]
    · simp [pyLookup, hp, ih]

theorem pyLookup_pyDictInsert_self (m : List (κ × β)) (k : κ) (v : β) :
    pyLookup k (pyDictInsert m k v) = some v := by
  unfold pyDictInsert
  by_cases hmem : k ∈ m.map Prod.fst
  · rw [if_pos hmem]; exact pyLookup_map_overwrite_mem k v m hmem
  · rw [if_neg hmem]; exact pyLookup_append_not_mem k v m hmem

theorem pyLookup_pyDictInsert_ne (m : List (κ × β)) (k k' : κ) (v : β) (h : k' ≠ k) :
    pyLookup k' (pyDictInsert m k v) = pyLookup k' m := by
  unfold pyDictInsert
  by_cases hmem : k ∈ m.map Prod.fst
  · rw [if_pos hmem]; exact pyLookup_map_overwrite k k' v h m
  · rw [if_neg hmem]; exact pyLookup_append_singleton_ne k k' v h m

theorem map_fst_pyDictInsert (m : List (κ × β)) (k : κ) (v : β) :
    (pyDictInsert m k v).map Prod.fst =
      if k ∈ m.map Prod.fst then m.map Prod.fst else m.map Prod.fst ++ [k] := by
  unfold pyDictInsert
  by_cases hmem : k ∈ m.map Prod.fst
  · rw [if_pos hmem, if_pos hmem, List.map_map]
    apply List.map_congr_left
    intro p _
    by_cases hp : p.1 = k <;> simp [hp]
  · rw [if_neg hmem, if_neg hmem]
    simp

/-- Keys of an association list are pairwise distinct. -/
def nodupKeys (m : List (κ × β)) : Prop := (m.map Prod.fst).Nodup

instance (m : List (κ × β)) : Decidable (nodupKeys m) := by
  unfold nodupKeys; infer_instance

theorem nodupKeys_pyDictInsert (m : List (κ × β)) (k : κ) (v : β)
    (h : nodupKeys m) : nodupKeys (pyDictInsert m k v) := by
  unfold nodupKeys
  rw [map_fst_pyDictInsert]
  by_cases hmem : k ∈ m.map Prod.fst
  · rwa [if_pos hmem]
  · rw [if_neg hmem]
    rw [List.nodup_append]
    exact ⟨h, List.nodup_singleton k,
      fun a ha hb => hmem ((List.mem_singleton.mp hb) ▸ ha)⟩

theorem mem_pyDictInsert (m : List (κ × β)) (k : κ) (v : β) (p : κ × β)
    (h : p ∈ pyDictInsert m k v) : p = (k, v) ∨ p ∈ m := by
  unfold pyDictInsert at h
  by_cases hmem : k ∈ m.map Prod.fst
  · rw [if_pos hmem] at h
    obtain ⟨q, hq, hpq⟩ := List.mem_map.mp h
    by_cases hqk : q.1 = k
    · left; rw [← hpq]; simp [hqk]
    · right; rw [← hpq]; simpa [hqk] using hq
  · rw [if_neg hmem] at h
    rcases List.mem_append.mp h with h' | h'
    · right; exact h'
    · left; simpa using h'

theorem pyLookup_mem (m : List (κ × β)) (k : κ) (v : β)
    (h : pyLookup k m = some v) : (k, v) ∈ m := by
  induction m with
  | nil => simp [pyLookup] at h
  | cons p rest ih =>
    by_cases hp : p.1 = k
    · simp only [pyLookup, if_pos hp] at h
      have hpv : p = (k, v) := Prod.ext hp (Option.some.inj h)
      rw [hpv]
      exact List.mem_cons_self _ _
    · simp only [pyLookup, if_neg hp] at h
      exact List.mem_cons_of_mem _ (ih h)

theorem pyLookup_isSome_pyDictInsert (m : List (κ × β)) (k k' : κ) (v : β)
    (h : (pyLookup k' m).isSome) : (pyLookup k' (pyDictInsert m k v)).isSome := by
  by_cases hk : k' = k
  · subst hk; rw [pyLookup_pyDictInsert_self]; rfl
  · rwa [pyLookup_pyDictInsert_ne m k k' v hk]

/-- An invariant preserved by every step of a left fold holds of the result. -/
theorem foldl_preserve {α γ : Type} (P : γ → Prop) (f : γ → α → γ)
    (hstep : ∀ b a, P b → P (f b a)) :
    ∀ (L : List α) (init : γ), P init → P (L.foldl f init) := by
  intro L
  induction L with
  | nil => intro init h; exact h
  | cons x L ih => intro init h; exact ih (f init x) (hstep init x h)

end AssocLemmas

/-! ## Sanitizer lemmas and predicates -/

theorem remove_null_types_dict_eq_map (kvs : List (String × PyVal)) :
    remove_null_types_dict kvs = kvs.map (fun kv => (kv.1, remove_null_types kv.2)) := by
  induction kvs with
  | nil => rfl
  | cons kv rest ih => simp [remove_null_types_dict, ih]

theorem remove_null_types_list_eq_filter_map (xs : List PyVal) :
    remove_null_types_list xs
      = (xs.map remove_null_types).filter (fun r => decide (¬ r = PyVal.none)) := by
  induction xs with
  | nil => rfl
  | cons x rest ih =>
    by_cases hx : remove_null_types x = PyVal.none
    · simp [remove_null_types_list, hx, ih, List.filter_cons]
    · simp [remove_null_types_list, hx, ih, List.filter_cons]

mutual

/-- `true` iff no sub-mapping of the tree has its `"type"` key mapped to
exactly `["null"]` (i.e. nothing in the tree is removable by the sanitizer). -/
def noNullTypeDict : PyVal → Bool
  | .dict kvs =>
      decide (¬ pyLookup "type" kvs = some (PyVal.list [PyVal.strv "null"]))
        && noNullTypeDictEntries kvs
  | .list xs => noNullTypeDictList xs
  | _ => true

/-- `noNullTypeDict` over the values of an association list. -/
def noNullTypeDictEntries : List (String × PyVal) → Bool
  | [] => true
  | kv :: rest => noNullTypeDict kv.2 && noNullTypeDictEntries rest

/-- `noNullTypeDict` over the elements of a list. -/
def noNullTypeDictList : List PyVal → Bool
  | [] => true
  | x :: rest => noNullTypeDict x && noNullTypeDictList rest

end

mutual

/-- `true` iff no list node of the tree contains the scalar `None` directly. -/
def listsNoneFree : PyVal → Bool
  | .dict kvs => listsNoneFreeEntries kvs
  | .list xs => listsNoneFreeList xs
  | _ => true

/-- `listsNoneFree` over the values of an association list. -/
def listsNoneFreeEntries : List (String × PyVal) → Bool
  | [] => true
  | kv :: rest => listsNoneFree kv.2 && listsNoneFreeEntries rest

/-- `listsNoneFree` over the elements of a list, also requiring that no
element is the scalar `None` itself. -/
def listsNoneFreeList : List PyVal → Bool
  | [] => true
  | x :: rest => decide (¬ x = PyVal.none) && listsNoneFree x && listsNoneFreeList rest

end

/-- On trees with no removable sub-mapping and no `None` inside any list,
the sanitizer is the identity. -/
theorem remove_null_types_fixed (v : PyVal)
    (h1 : noNullTypeDict v = true) (h2 : listsNoneFree v = true) :
    remove_null_types v = v := by
  induction v using PyVal.ind with
  | hnone => rfl
  | hbool b => rfl
  | hint n => rfl
  | hstr s => rfl
  | hlist xs ih =>
    simp only [remove_null_types, PyVal.list.injEq]
    simp only [noNullTypeDict] at h1
    simp only [listsNoneFree] at h2
    clear * - ih h1 h2
    induction xs with
    | nil => rfl
    | cons x rest ihr =>
      simp only [noNullTypeDictList, Bool.and_eq_true] at h1
      simp only [listsNoneFreeList, Bool.and_eq_true, decide_eq_true_eq] at h2
      have hx : remove_null_types x = x := ih x (by simp) h1.1 h2.1.2
      have hrest := ihr (fun y hy => ih y (by simp [hy])) h1.2 h2.2
      simp [remove_null_types_list, hx, h2.1.1, hrest]
  | hdict kvs ih =>
    simp only [noNullTypeDict, Bool.and_eq_true, decide_eq_true_eq] at h1
    simp only [listsNoneFree] at h2
    simp only [remove_null_types, if_neg h1.1, PyVal.dict.injEq]
    have h1' := h1.2
    clear * - ih h1' h2
    induction kvs with
    | nil => rfl
    | cons kv rest ihr =>
      simp only [noNullTypeDictEntries, Bool.and_eq_true] at h1'
      simp only [listsNoneFreeEntries, Bool.and_eq_true] at h2
      have hv : remove_null_types kv.2 = kv.2 := ih kv (by simp) h1'.1 h2.1
      have hrest := ihr (fun z hz => ih z (by simp [hz])) h2.2 h1'.2
      simp [remove_null_types_dict, hv, hrest]

/-- The sanitizer never leaves a `None` directly inside a list node. -/
theorem listsNoneFree_remove_null_types (v : PyVal) :
    listsNoneFree (remove_null_types v) = true := by
  induction v using PyVal.ind with
  | hnone => rfl
  | hbool b => rfl
  | hint n => rfl
  | hstr s => rfl
  | hlist xs ih =>
    simp only [remove_null_types, listsNoneFree]
    induction xs with
    | nil => rfl
    | cons x rest ihr =>
      have hrest := ihr (fun y hy => ih y (by simp [hy]))
      by_cases hx : remove_null_types x = PyVal.none
      · simpa [remove_null_types_list, hx] using hrest
      · simp [remove_null_types_list, hx, listsNoneFreeList, ih x (by simp), hrest]
  | hdict kvs ih =>
    by_cases hnull : pyLookup "type" kvs = some (PyVal.list [PyVal.strv "null"])
    · simp [remove_null_types, hnull, listsNoneFree]
    · simp only [remove_null_types, if_neg hnull, listsNoneFree]
      clear hnull
      induction kvs with
      | nil => rfl
      | cons kv rest ihr =>
        have hrest := ihr (fun z hz => ih z (by simp [hz]))
        simp [remove_null_types_dict, listsNoneFreeEntries, ih kv (by simp), hrest]

/-! ## Claim C5 — sanitizer removal rules -/

/-- C5: a mapping whose `"type"` key is exactly `["null"]` sanitizes to the
absent value; a sequence sanitizes elementwise with absent results dropped;
scalars are unchanged; and the two concrete examples of the spec hold:
`{"anyOf": [{"type": ["null"]}, {"type": "string"}]}` sanitizes to
`{"anyOf": [{"type": "string"}]}` and `[{"type": ["null"]}, 5]` to `[5]`. -/
theorem C5_sanitizer_removal_rules :
    (∀ kvs : List (String × PyVal),
        pyLookup "type" kvs = some (PyVal.list [PyVal.strv "null"]) →
        remove_null_types (PyVal.dict kvs) = PyVal.none)
    ∧ (∀ xs : List PyVal,
        remove_null_types (PyVal.list xs)
          = PyVal.list
              ((xs.map remove_null_types).filter (fun r => decide (¬ r = PyVal.none))))
    ∧ (remove_null_types PyVal.none = PyVal.none
        ∧ (∀ b, remove_null_types (PyVal.boolv b) = PyVal.boolv b)
        ∧ (∀ n, remove_null_types (PyVal.intv n) = PyVal.intv n)
        ∧ (∀ s, remove_null_types (PyVal.strv s) = PyVal.strv s))
    ∧ remove_null_types
        (.dict [("anyOf", .list [.dict [("type", .list [.strv "null"])],
                                 .dict [("type", .strv "string")]])])
        = .dict [("anyOf", .list [.dict [("type", .strv "string")]])]
    ∧ remove_null_types (.list [.dict [("type", .list [.strv "null"])], .intv 5])
        = .list [.intv 5] := by
  refine ⟨?_, ?_, ⟨rfl, fun b => rfl, fun n => rfl, fun s => rfl⟩, by decide, by decide⟩
  · intro kvs h
    simp [remove_null_types, h]
  · intro xs
    simp [remove_null_types, remove_null_types_list_eq_filter_map]

/-- Witness for C5 at concrete inputs: instantiates the removal rule at the
mapping `{"type": ["null"]}` and the sequence rule at `[{"type": ["null"]}, 5]`. -/
theorem C5_sanitizer_removal_rules_witness :
    remove_null_types (PyVal.dict [("type", PyVal.list [PyVal.strv "null"])]) = PyVal.none
    ∧ remove_null_types (PyVal.list [PyVal.dict [("type", PyVal.list [PyVal.strv "null"])],
                                     PyVal.intv 5])
        = PyVal.list [PyVal.intv 5] :=
  ⟨C5_sanitizer_removal_rules.1 [("type", PyVal.list [PyVal.strv "null"])] (by decide),
   (C5_sanitizer_removal_rules.2.1 [PyVal.dict [("type", PyVal.list [PyVal.strv "null"])],
                                    PyVal.intv 5]).trans (by decide)⟩

/-! ## Claim C6 — sanitizer preserves the key set of surviving mappings -/

/-- C6: a mapping that is not itself removed keeps exactly its original keys,
in order, each mapped to the sanitized value — including keys whose sanitized
value became the absent marker `None`. -/
theorem C6_sanitizer_preserves_keys (kvs : List (String × PyVal))
    (h : ¬ pyLookup "type" kvs = some (PyVal.list [PyVal.strv "null"])) :
    remove_null_types (PyVal.dict kvs)
        = PyVal.dict (kvs.map (fun kv => (kv.1, remove_null_types kv.2)))
    ∧ (kvs.map (fun kv => (kv.1, remove_null_types kv.2))).map Prod.fst
        = kvs.map Prod.fst := by
  constructor
  · simp [remove_null_types, h, remove_null_types_dict_eq_map]
  · rw [List.map_map]
    rfl

/-- Witness for C6: `{"default": {"type": ["null"]}}` is not itself removed,
and sanitizes to `{"default": None}` — the key survives with an absent value. -/
theorem C6_sanitizer_preserves_keys_witness :
    remove_null_types
        (PyVal.dict [("default", PyVal.dict [("type", PyVal.list [PyVal.strv "null"])])])
      = PyVal.dict [("default", PyVal.none)] :=
  ((C6_sanitizer_preserves_keys
      [("default", PyVal.dict [("type", PyVal.list [PyVal.strv "null"])])]
      (by decide)).1).trans (by decide)

/-! ## Claim C2 — idempotence of the sanitizer

The claim `sanitize (sanitize x) = sanitize x` for every tree `x` is FALSE
on the code: sanitizing `{"type": ["null", {"type": ["null"]}]}` removes the
inner removable mapping from the list under `"type"`, leaving
`{"type": ["null"]}` — which a second pass removes entirely.  Idempotence
does hold whenever the first pass leaves no removable mapping behind. -/

/-- Counterexample to C2 as stated: a concrete schema on which
`sanitize (sanitize x) ≠ sanitize x` (the first pass yields
`{"type": ["null"]}`, the second collapses it to `None`). -/
theorem C2_sanitizer_not_idempotent :
    remove_null_types
        (remove_null_types
          (PyVal.dict [("type", PyVal.list [PyVal.strv "null",
                          PyVal.dict [("type", PyVal.list [PyVal.strv "null"])]])]))
      ≠ remove_null_types
          (PyVal.dict [("type", PyVal.list [PyVal.strv "null",
                          PyVal.dict [("type", PyVal.list [PyVal.strv "null"])]])])
    ∧ remove_null_types
        (PyVal.dict [("type", PyVal.list [PyVal.strv "null",
                        PyVal.dict [("type", PyVal.list [PyVal.strv "null"])]])])
      = PyVal.dict [("type", PyVal.list [PyVal.strv "null"])]
    ∧ remove_null_types (PyVal.dict [("type", PyVal.list [PyVal.strv "null"])])
      = PyVal.none := by
  refine ⟨by decide, by decide, by decide⟩

/-- C2 (amended): the sanitizer is idempotent on every input whose sanitized
result contains no mapping with `"type"` equal to `["null"]` (in particular on
every already-sanitized tree with that property). -/
theorem C2_sanitizer_conditionally_idempotent (x : PyVal)
    (h : noNullTypeDict (remove_null_types x) = true) :
    remove_null_types (remove_null_types x) = remove_null_types x :=
  remove_null_types_fixed (remove_null_types x) h (listsNoneFree_remove_null_types x)

/-- Witness for the amended C2 at the spec's own `anyOf` example. -/
theorem C2_sanitizer_conditionally_idempotent_witness :
    noNullTypeDict
        (remove_null_types
          (PyVal.dict [("anyOf", PyVal.list [PyVal.dict [("type", PyVal.list [PyVal.strv "null"])],
                                             PyVal.dict [("type", PyVal.strv "string")]])]))
        = true
    ∧ remove_null_types
        (remove_null_types
          (PyVal.dict [("anyOf", PyVal.list [PyVal.dict [("type", PyVal.list [PyVal.strv "null"])],
                                             PyVal.dict [("type", PyVal.strv "string")]])]))
      = remove_null_types
          (PyVal.dict [("anyOf", PyVal.list [PyVal.dict [("type", PyVal.list [PyVal.strv "null"])],
                                             PyVal.dict [("type", PyVal.strv "string")]])]) :=
  ⟨by decide,
   C2_sanitizer_conditionally_idempotent
     (PyVal.dict [("anyOf", PyVal.list [PyVal.dict [("type", PyVal.list [PyVal.strv "null"])],
                                        PyVal.dict [("type", PyVal.strv "string")]])])
     (by decide)⟩

/-! ## Embedding of `src/wic/plugins.py`

`glob.glob`, `Path(...).stem`, `os.path.abspath` and `yaml.safe_load` are
external library collaborators; they enter the embedding as opaque function
parameters `globF`, `stemF`, `abspathF` and `contents`.  `globF d` stands for
`glob.glob(str(Path(d) / dollar-star-star-slash-star-suffix), recursive=True)`
applied to a directory `d`, returning matches in glob order. -/

/-- Python's substring test `sub in s`. -/
def containsSub (sub s : String) : Bool := decide (sub.toList <:+: s.toList)

/-- Modelled from the spec: `StepId` of `wic/wic_types.py` (the file is not
part of the sources here).  Per spec section 3 it is the composite identity
`(name, namespace)` of a discovered tool, with structural equality on both
fields. -/
structure StepId where
  stem : String
  plugin_ns : String
deriving DecidableEq

/-- Modelled from the spec: `Tool` of `wic/wic_types.py` (the file is not
part of the sources here).  Per spec section 3 it pairs the absolute path of
the definition file with the loaded generic document. -/
structure Tool where
  run_path : String
  cwl : List (String × PyVal)
deriving DecidableEq

/-- An invocation of one of the `cwltool.load_tool` API functions, with the
arguments relevant to validation.  `resolve_and_validate` records the
`preprocess_only` keyword and an optional `skip_schemas` keyword
(`Option.none` when the keyword is not passed at all). -/
inductive CwltoolCall where
  | fetch_document (path : String)
  | resolve_and_validate (path : String) (preprocess_only : Bool) (skip_schemas : Option Bool)
  | make_tool (path : String)
deriving DecidableEq

/-- Embedding of `validate_cwl` (plugins.py lines 39-61) as the sequence of
`cwltool.load_tool` calls it performs.  The source comments out the line
`loading_context.skip_schemas = skip_schemas` (line 52) and calls
`resolve_and_validate_document(..., preprocess_only=False)` without any
`skip_schemas` keyword, so the `skip_schemas` parameter is accepted but
never forwarded. -/
def validate_cwl (cwl_path_str : String) (skip_schemas : Bool) : List CwltoolCall :=
  [CwltoolCall.fetch_document cwl_path_str,
   CwltoolCall.resolve_and_validate cwl_path_str false Option.none,
   CwltoolCall.make_tool cwl_path_str]

/-- The observable outputs of `get_tools_cwl`: the returned catalog, the
zero-match warnings printed (one per directory with no matching files,
recording that directory), and the arguments of every `validate_cwl`
invocation. -/
structure ToolsResult where
  tools_cwl : List (StepId × Tool)
  warnings : List String
  validate_calls : List (String × Bool)
deriving DecidableEq

/-- The body of the inner `for cwl_path_str in cwl_paths` loop of
`get_tools_cwl` (plugins.py lines 93-111). -/
def toolsFileStep (stemF abspathF : String → String)
    (contents : String → List (String × PyVal))
    (validate_plugins skip_schemas : Bool) (plugin_ns : String)
    (res : ToolsResult) (cwl_path_str : String) : ToolsResult :=
  if containsSub "biobb_md" cwl_path_str then res
  else
    let tool := contents cwl_path_str
    let stem := stemF cwl_path_str
    let res := if validate_plugins
               then { res with validate_calls := res.validate_calls ++ [(cwl_path_str, skip_schemas)] }
               else res
    let tool := pyDictInsert tool "stdout" (PyVal.strv (stem ++ ".out"))
    let tool := pyDictInsert tool "stderr" (PyVal.strv (stem ++ ".err"))
    { res with tools_cwl := pyDictInsert res.tools_cwl ⟨stem, plugin_ns⟩
                              ⟨abspathF cwl_path_str, tool⟩ }

/-- The body of the outer `for plugin_ns, cwl_dir in cwl_dirs` loop of
`get_tools_cwl` (plugins.py lines 81-111): glob the directory, warn when
nothing matched, then run the inner loop. -/
def toolsDirStep (stemF abspathF : String → String) (globF : String → List String)
    (contents : String → List (String × PyVal))
    (validate_plugins skip_schemas : Bool)
    (res : ToolsResult) (pr : String × String) : ToolsResult :=
  let cwl_paths := globF pr.2
  let res := if cwl_paths.length = 0
             then { res with warnings := res.warnings ++ [pr.2] } else res
  cwl_paths.foldl (toolsFileStep stemF abspathF contents validate_plugins skip_schemas pr.1) res

/-- Embedding of `get_tools_cwl` (plugins.py lines 64-112).  Inputs:
the external collaborators, the two flags, and the `(plugin_ns, cwl_dir)`
pairs read from `cwl_dirs.txt`.  For each pair the directory is globbed;
an empty glob prints a warning; each file not containing the deprecated
marker `biobb_md` is loaded, optionally validated, has `stdout`/`stderr`
force-set to `<stem>.out` / `<stem>.err`, and is inserted into the catalog
keyed by `StepId(stem, plugin_ns)`.  The `mkdir` / `copy_config_files` side
effects do not influence any output and are not modelled. -/
def get_tools_cwl (stemF abspathF : String → String) (globF : String → List String)
    (contents : String → List (String × PyVal))
    (validate_plugins skip_schemas : Bool)
    (cwl_dirs : List (String × String)) : ToolsResult :=
  cwl_dirs.foldl (toolsDirStep stemF abspathF globF contents validate_plugins skip_schemas)
    ⟨[], [], []⟩

/-- Stable insertion into a list kept sorted by string length, descending:
the new element goes after every element at least as long. -/
def insertDescLen (x : String) : List String → List String
  | [] => [x]
  | y :: ys => if x.length ≤ y.length then y :: insertDescLen x ys else x :: y :: ys

/-- `sorted(paths, key=len, reverse=True)`: stable sort by length, longest
first (processing the input left to right keeps equal-length elements in
their original order). -/
def sortDescLen (xs : List String) : List String :=
  xs.foldl (fun acc x => insertDescLen x acc) []

/-- The per-pair loop of `get_yml_paths` (plugins.py lines 144-150): walk the
length-sorted paths, skip any containing `_inputs`, and assign
`yml_paths[stem] = abspath` so that a later (shorter) path overwrites an
earlier (longer) one with the same stem. -/
def ymlPerPairMap (stemF abspathF : String → String) (paths : List String) :
    List (String × String) :=
  paths.foldl (fun m yml_path_str =>
    if containsSub "_inputs" yml_path_str then m
    else pyDictInsert m (stemF yml_path_str) (abspathF yml_path_str)) []

/-- The Python dict display `{**a, **b}`: a fresh dict populated by inserting
all entries of `a`, then all entries of `b`. -/
def pyUnion {κ β : Type} [DecidableEq κ] (a b : List (κ × β)) : List (κ × β) :=
  (a ++ b).foldl (fun m kv => pyDictInsert m kv.1 kv.2) []

/-- The observable outputs of `get_yml_paths`: the namespace → (stem →
absolute path) catalog and the zero-match warnings (one per directory with
no matching files, recording that directory). -/
structure YmlResult where
  yml_paths_all : List (String × List (String × String))
  warnings : List String
deriving DecidableEq

/-- The body of the `for yml_namespace, yml_dir in yml_dirs` loop of
`get_yml_paths` (plugins.py lines 134-154): sort the glob result by length
descending, warn when nothing matched, build the per-pair map, and merge it
into the namespace's existing map with `{**ns_dict, **yml_paths}`. -/
def ymlDirStep (stemF abspathF : String → String) (globF : String → List String)
    (res : YmlResult) (pr : String × String) : YmlResult :=
  let yml_paths_sorted := sortDescLen (globF pr.2)
  let res := if yml_paths_sorted.length = 0
             then { res with warnings := res.warnings ++ [pr.2] } else res
  let yml_paths := ymlPerPairMap stemF abspathF yml_paths_sorted
  let ns_dict := (pyLookup pr.1 res.yml_paths_all).getD []
  { res with yml_paths_all := pyDictInsert res.yml_paths_all pr.1 (pyUnion ns_dict yml_paths) }

/-- Embedding of `get_yml_paths` (plugins.py lines 115-156): fold
`ymlDirStep` over the `(yml_namespace, yml_dir)` pairs read from
`yml_dirs.txt`, starting from an empty catalog. -/
def get_yml_paths (stemF abspathF : String → String) (globF : String → List String)
    (yml_dirs : List (String × String)) : YmlResult :=
  yml_dirs.foldl (ymlDirStep stemF abspathF globF) ⟨[], []⟩

/-! ## Last-write-wins characterization of insertion folds -/

/-- The last element of `L` that is not skipped by `cond` and whose key is
`k` — the element whose insertion a fold of `pyDictInsert`s keeps for `k`. -/
def lastMatchGen {α κ : Type} [DecidableEq κ] (cond : α → Bool) (key : α → κ) (k : κ) :
    List α → Option α
  | [] => Option.none
  | x :: rest =>
      match lastMatchGen cond key k rest with
      | some y => some y
      | Option.none => if cond x = false ∧ key x = k then some x else Option.none

theorem pyLookup_foldl_lastMatch {α κ β : Type} [DecidableEq κ]
    (cond : α → Bool) (key : α → κ) (val : α → β)
    (f : List (κ × β) → α → List (κ × β))
    (hf : ∀ m x, f m x = if cond x then m else pyDictInsert m (key x) (val x)) :
    ∀ (L : List α) (init : List (κ × β)) (k : κ),
      pyLookup k (L.foldl f init)
        = match lastMatchGen cond key k L with
          | some x => some (val x)
          | Option.none => pyLookup k init := by
  intro L
  induction L with
  | nil => intro init k; rfl
  | cons x L ih =>
    intro init k
    rw [List.foldl_cons, ih]
    cases h : lastMatchGen cond key k L with
    | some y => simp [lastMatchGen, h]
    | none =>
      simp only [lastMatchGen, h]
      by_cases hc : cond x = true
      · rw [hf]
        simp [hc]
      · have hc' : cond x = false := by simpa using hc
        by_cases hk : key x = k
        · rw [hf]
          simp [hc', hk, pyLookup_pyDictInsert_self]
        · have hne := pyLookup_pyDictInsert_ne init (key x) k (val x) (fun he => hk he.symm)
          rw [hf]
          simp [hc', hk, hne]

theorem lastMatchGen_eq_none {α κ : Type} [DecidableEq κ]
    (cond : α → Bool) (key : α → κ) (k : κ) :
    ∀ L : List α, (∀ r ∈ L, ¬ (cond r = false ∧ key r = k)) →
      lastMatchGen cond key k L = Option.none := by
  intro L
  induction L with
  | nil => intro _; rfl
  | cons x rest ih =>
    intro h
    have hrest := ih (fun r hr => h r (List.mem_cons_of_mem _ hr))
    simp only [lastMatchGen, hrest]
    rw [if_neg (h x (List.mem_cons_self _ _))]

theorem nodupKeys_foldl_pyDictInsert {α κ β : Type} [DecidableEq κ]
    (cond : α → Bool) (key : α → κ) (val : α → β)
    (f : List (κ × β) → α → List (κ × β))
    (hf : ∀ m x, f m x = if cond x then m else pyDictInsert m (key x) (val x)) :
    ∀ (L : List α) (init : List (κ × β)),
      nodupKeys init → nodupKeys (L.foldl f init) := by
  intro L init h
  refine foldl_preserve nodupKeys f ?_ L init h
  intro m x hm
  rw [hf]
  by_cases hc : cond x = true
  · simpa [hc] using hm
  · have hc' : cond x = false := by simpa using hc
    simpa [hc'] using nodupKeys_pyDictInsert m (key x) (val x) hm

/-! ## Length-descending sort: membership and sortedness -/

theorem mem_insertDescLen (x a : String) :
    ∀ l : List String, a ∈ insertDescLen x l ↔ a = x ∨ a ∈ l := by
  intro l
  induction l with
  | nil => simp [insertDescLen]
  | cons y ys ih =>
    by_cases h : x.length ≤ y.length
    · simp only [insertDescLen, if_pos h, List.mem_cons, ih]
      tauto
    · simp only [insertDescLen, if_neg h, List.mem_cons]

theorem pairwise_insertDescLen (x : String) :
    ∀ l : List String, l.Pairwise (fun a b => b.length ≤ a.length) →
      (insertDescLen x l).Pairwise (fun a b => b.length ≤ a.length) := by
  intro l
  induction l with
  | nil => intro _; simp [insertDescLen]
  | cons y ys ih =>
    intro h
    rw [List.pairwise_cons] at h
    by_cases hxy : x.length ≤ y.length
    · rw [insertDescLen, if_pos hxy, List.pairwise_cons]
      refine ⟨?_, ih h.2⟩
      intro z hz
      rcases (mem_insertDescLen x z ys).mp hz with hz1 | hz1
      · rw [hz1]; exact hxy
      · exact h.1 z hz1
    · rw [insertDescLen, if_neg hxy, List.pairwise_cons]
      refine ⟨?_, List.pairwise_cons.mpr h⟩
      intro z hz
      rcases List.mem_cons.mp hz with hz1 | hz1
      · rw [hz1]; omega
      · exact le_trans (h.1 z hz1) (by omega)

theorem mem_foldl_insertDescLen (a : String) :
    ∀ (L : List String) (acc : List String),
      a ∈ L.foldl (fun acc x => insertDescLen x acc) acc ↔ a ∈ acc ∨ a ∈ L := by
  intro L
  induction L with
  | nil => intro acc; simp
  | cons x L ih =>
    intro acc
    rw [List.foldl_cons, ih, mem_insertDescLen]
    simp only [List.mem_cons]
    tauto

theorem mem_sortDescLen (a : String) (xs : List String) :
    a ∈ sortDescLen xs ↔ a ∈ xs := by
  unfold sortDescLen
  rw [mem_foldl_insertDescLen]
  simp

theorem pairwise_sortDescLen (xs : List String) :
    (sortDescLen xs).Pairwise (fun a b => b.length ≤ a.length) :=
  foldl_preserve (List.Pairwise (fun a b => b.length ≤ a.length))
    (fun acc x => insertDescLen x acc)
    (fun acc x h => pairwise_insertDescLen x acc h) xs [] List.Pairwise.nil

theorem lastMatchGen_eq_some_imp {α κ : Type} [DecidableEq κ]
    (cond : α → Bool) (key : α → κ) (k : κ) :
    ∀ (L : List α) (x : α), lastMatchGen cond key k L = some x →
      x ∈ L ∧ cond x = false ∧ key x = k := by
  intro L
  induction L with
  | nil => intro x h; simp [lastMatchGen] at h
  | cons y rest ih =>
    intro x h
    simp only [lastMatchGen] at h
    cases hr : lastMatchGen cond key k rest with
    | some z =>
      rw [hr] at h
      obtain ⟨h1, h2, h3⟩ := ih z hr
      cases h
      exact ⟨List.mem_cons_of_mem _ h1, h2, h3⟩
    | none =>
      rw [hr] at h
      by_cases hc : cond y = false ∧ key y = k
      · rw [if_pos hc] at h
        cases h
        exact ⟨List.mem_cons_self _ _, hc.1, hc.2⟩
      · rw [if_neg hc] at h
        exact absurd h (by simp)

theorem lastMatchGen_append {α κ : Type} [DecidableEq κ]
    (cond : α → Bool) (key : α → κ) (k : κ) :
    ∀ (L1 L2 : List α),
      lastMatchGen cond key k (L1 ++ L2)
        = match lastMatchGen cond key k L2 with
          | some y => some y
          | Option.none => lastMatchGen cond key k L1 := by
  intro L1 L2
  induction L1 with
  | nil =>
    cases h : lastMatchGen cond key k L2 <;> simp [h, lastMatchGen]
  | cons x L1 ih =>
    rw [List.cons_append]
    simp only [lastMatchGen, ih]
    cases h : lastMatchGen cond key k L2 <;> simp

/-- In a length-descending list whose only surviving elements with key `k`
are `p` and `q`, with `q` strictly shorter than `p`, the last such element is
`q`. -/
theorem lastMatchGen_sorted_shorter {κ : Type} [DecidableEq κ]
    (cond : String → Bool) (key : String → κ) (k : κ) (p q : String)
    (hlen : q.length < p.length)
    (hqc : cond q = false) (hqk : key q = k) :
    ∀ L : List String, L.Pairwise (fun a b => b.length ≤ a.length) →
      q ∈ L →
      (∀ r ∈ L, cond r = false → key r = k → r = p ∨ r = q) →
      lastMatchGen cond key k L = some q := by
  intro L
  induction L with
  | nil => intro _ hq _; simp at hq
  | cons x rest ih =>
    intro hpw hq honly
    rw [List.pairwise_cons] at hpw
    by_cases hqr : q ∈ rest
    · have := ih hpw.2 hqr (fun r hr => honly r (List.mem_cons_of_mem _ hr))
      simp [lastMatchGen, this]
    · have hxq : x = q := by
        rcases List.mem_cons.mp hq with h1 | h1
        · exact h1.symm
        · exact absurd h1 hqr
      subst hxq
      have hnone : lastMatchGen cond key k rest = Option.none := by
        apply lastMatchGen_eq_none
        intro r hr hmatch
        rcases honly r (List.mem_cons_of_mem _ hr) hmatch.1 hmatch.2 with h1 | h1
        · subst h1
          exact absurd (hpw.1 r hr) (by omega)
        · subst h1
          exact hqr hr
      simp [lastMatchGen, hnone, hqc, hqk]

/-! ## `pyUnion` (dict union) lemmas -/

theorem length_insertDescLen (x : String) :
    ∀ l : List String, (insertDescLen x l).length = l.length + 1 := by
  intro l
  induction l with
  | nil => rfl
  | cons y ys ih =>
    by_cases h : x.length ≤ y.length
    · simp [insertDescLen, h, ih]
    · simp [insertDescLen, h]

theorem length_sortDescLen (xs : List String) :
    (sortDescLen xs).length = xs.length := by
  unfold sortDescLen
  suffices h : ∀ (L : List String) (acc : List String),
      (L.foldl (fun acc x => insertDescLen x acc) acc).length = acc.length + L.length by
    simpa using h xs []
  intro L
  induction L with
  | nil => intro acc; simp
  | cons x L ih =>
    intro acc
    rw [List.foldl_cons, ih, length_insertDescLen]
    simp only [List.length_cons]
    omega

theorem foldl_pyDictInsert_of_disjoint {κ β : Type} [DecidableEq κ] :
    ∀ (b acc : List (κ × β)), nodupKeys b →
      (∀ k ∈ b.map Prod.fst, k ∉ acc.map Prod.fst) →
      b.foldl (fun m kv => pyDictInsert m kv.1 kv.2) acc = acc ++ b := by
  intro b
  induction b with
  | nil => intro acc _ _; simp
  | cons kv rest ih =>
    intro acc hnd hdisj
    have hkv : kv.1 ∉ acc.map Prod.fst := hdisj kv.1 (by simp)
    have hstep : pyDictInsert acc kv.1 kv.2 = acc ++ [kv] := by
      unfold pyDictInsert
      rw [if_neg hkv]
    rw [List.foldl_cons, hstep]
    have hnd' : nodupKeys rest := by
      unfold nodupKeys at hnd ⊢
      rw [List.map_cons] at hnd
      exact (List.nodup_cons.mp hnd).2
    have hhead : kv.1 ∉ rest.map Prod.fst := by
      unfold nodupKeys at hnd
      rw [List.map_cons] at hnd
      exact (List.nodup_cons.mp hnd).1
    have hdisj' : ∀ k ∈ rest.map Prod.fst, k ∉ (acc ++ [kv]).map Prod.fst := by
      intro k hk
      rw [List.map_append]
      intro hmem
      rcases List.mem_append.mp hmem with h1 | h1
      · exact hdisj k (by simp [hk]) h1
      · simp only [List.map_cons, List.map_nil, List.mem_singleton] at h1
        exact hhead (h1 ▸ hk)
    rw [ih (acc ++ [kv]) hnd' hdisj', List.append_assoc]
    rfl

theorem nodupKeys_nil {κ β : Type} [DecidableEq κ] : nodupKeys ([] : List (κ × β)) := by
  unfold nodupKeys; simp

theorem nodupKeys_pyUnion {κ β : Type} [DecidableEq κ] (a b : List (κ × β)) :
    nodupKeys (pyUnion a b) := by
  unfold pyUnion
  exact nodupKeys_foldl_pyDictInsert (fun _ => false) Prod.fst Prod.snd _
    (fun m x => by simp) (a ++ b) [] nodupKeys_nil

theorem pyUnion_nil_left {κ β : Type} [DecidableEq κ] (b : List (κ × β))
    (h : nodupKeys b) : pyUnion [] b = b := by
  unfold pyUnion
  rw [List.nil_append]
  simpa using foldl_pyDictInsert_of_disjoint b [] h (by simp)

theorem pyUnion_nil_right {κ β : Type} [DecidableEq κ] (a : List (κ × β))
    (h : nodupKeys a) : pyUnion a [] = a := by
  unfold pyUnion
  rw [List.append_nil]
  simpa using foldl_pyDictInsert_of_disjoint a [] h (by simp)

theorem lastMatchGen_nodup_lookup {κ β : Type} [DecidableEq κ] (k : κ) :
    ∀ b : List (κ × β), nodupKeys b →
      (match lastMatchGen (fun _ => false) Prod.fst k b with
       | some kv => some kv.2
       | Option.none => Option.none)
        = pyLookup k b := by
  intro b
  induction b with
  | nil => intro _; rfl
  | cons kv rest ih =>
    intro hnd
    have hnd' : nodupKeys rest := by
      unfold nodupKeys at hnd ⊢
      rw [List.map_cons] at hnd
      exact (List.nodup_cons.mp hnd).2
    have hhead : kv.1 ∉ rest.map Prod.fst := by
      unfold nodupKeys at hnd
      rw [List.map_cons] at hnd
      exact (List.nodup_cons.mp hnd).1
    by_cases hk : kv.1 = k
    · have hnone : lastMatchGen (fun _ => false) Prod.fst k rest = Option.none := by
        apply lastMatchGen_eq_none
        intro r hr hmatch
        apply hhead
        rw [hk, ← hmatch.2]
        exact List.mem_map.mpr ⟨r, hr, rfl⟩
      simp [lastMatchGen, hnone, hk, pyLookup]
    · cases hr : lastMatchGen (fun _ => false) Prod.fst k rest with
      | some z =>
        have := ih hnd'
        rw [hr] at this
        simp only [lastMatchGen, hr, pyLookup, if_neg hk]
        exact this
      | none =>
        have := ih hnd'
        rw [hr] at this
        simp only [lastMatchGen, hr, pyLookup, if_neg hk]
        rw [if_neg (by simp [hk])]
        exact this

theorem pyLookup_pyUnion_nodup {κ β : Type} [DecidableEq κ] (a b : List (κ × β))
    (ha : nodupKeys a) (hb : nodupKeys b) (k : κ) :
    pyLookup k (pyUnion a b)
      = match pyLookup k b with
        | some v => some v
        | Option.none => pyLookup k a := by
  unfold pyUnion
  rw [pyLookup_foldl_lastMatch (fun _ => false) Prod.fst Prod.snd _
    (fun m x => by simp) (a ++ b) [] k]
  rw [lastMatchGen_append]
  cases hbm : lastMatchGen (fun _ => false) Prod.fst k b with
  | some z =>
    have := lastMatchGen_nodup_lookup k b hb
    rw [hbm] at this
    rw [← this]
  | none =>
    have hbnone := lastMatchGen_nodup_lookup k b hb
    rw [hbm] at hbnone
    rw [← hbnone]
    cases ham : lastMatchGen (fun _ => false) Prod.fst k a with
    | some z =>
      have := lastMatchGen_nodup_lookup k a ha
      rw [ham] at this
      rw [← this]
    | none =>
      have hanone := lastMatchGen_nodup_lookup k a ha
      rw [ham] at hanone
      rw [← hanone]
      rfl

/-! ## Component and flattening lemmas for the two builders -/

/-- The document stored for a discovered tool file: the loaded document with
`stdout` and `stderr` force-set to `<stem>.out` / `<stem>.err`
(plugins.py lines 106-107). -/
def mkToolDoc (stemF : String → String) (contents : String → List (String × PyVal))
    (cwl_path_str : String) : List (String × PyVal) :=
  pyDictInsert
    (pyDictInsert (contents cwl_path_str) "stdout"
      (PyVal.strv (stemF cwl_path_str ++ ".out")))
    "stderr" (PyVal.strv (stemF cwl_path_str ++ ".err"))

/-- The effect of one discovered file on the tool catalog alone. -/
def toolsCatStep (stemF abspathF : String → String)
    (contents : String → List (String × PyVal))
    (c : List (StepId × Tool)) (pr : String × String) : List (StepId × Tool) :=
  if containsSub "biobb_md" pr.2 then c
  else pyDictInsert c ⟨stemF pr.2, pr.1⟩ ⟨abspathF pr.2, mkToolDoc stemF contents pr.2⟩

/-- The discovered `(namespace, path)` pairs in processing order: directory
pairs in registry order, glob results within each directory in glob order. -/
def allCwlFiles (globF : String → List String) :
    List (String × String) → List (String × String)
  | [] => []
  | pr :: rest => (globF pr.2).map (fun p => (pr.1, p)) ++ allCwlFiles globF rest

/-- The directories (in order) whose glob matched nothing — the warnings
both builders print. -/
def emptyDirsWarnings (globF : String → List String) :
    List (String × String) → List String
  | [] => []
  | pr :: rest => (if (globF pr.2).length = 0 then [pr.2] else [])
      ++ emptyDirsWarnings globF rest

theorem toolsFileStep_tools_cwl (stemF abspathF : String → String)
    (contents : String → List (String × PyVal)) (vp ss : Bool) (ns : String)
    (res : ToolsResult) (p : String) :
    (toolsFileStep stemF abspathF contents vp ss ns res p).tools_cwl
      = toolsCatStep stemF abspathF contents res.tools_cwl (ns, p) := by
  unfold toolsFileStep toolsCatStep mkToolDoc
  by_cases hc : containsSub "biobb_md" p = true
  · simp [hc]
  · have hc' : containsSub "biobb_md" p = false := by simpa using hc
    by_cases hv : vp = true <;> simp [hc', hv]

theorem toolsFileStep_warnings (stemF abspathF : String → String)
    (contents : String → List (String × PyVal)) (vp ss : Bool) (ns : String)
    (res : ToolsResult) (p : String) :
    (toolsFileStep stemF abspathF contents vp ss ns res p).warnings = res.warnings := by
  unfold toolsFileStep
  by_cases hc : containsSub "biobb_md" p = true
  · simp [hc]
  · have hc' : containsSub "biobb_md" p = false := by simpa using hc
    by_cases hv : vp = true <;> simp [hc', hv]

theorem foldl_toolsFileStep_tools_cwl (stemF abspathF : String → String)
    (contents : String → List (String × PyVal)) (vp ss : Bool) (ns : String) :
    ∀ (paths : List String) (res : ToolsResult),
      (paths.foldl (toolsFileStep stemF abspathF contents vp ss ns) res).tools_cwl
        = (paths.map (fun p => (ns, p))).foldl
            (toolsCatStep stemF abspathF contents) res.tools_cwl := by
  intro paths
  induction paths with
  | nil => intro res; rfl
  | cons p paths ih =>
    intro res
    rw [List.foldl_cons, ih, List.map_cons, List.foldl_cons,
      toolsFileStep_tools_cwl]

theorem foldl_toolsFileStep_warnings (stemF abspathF : String → String)
    (contents : String → List (String × PyVal)) (vp ss : Bool) (ns : String) :
    ∀ (paths : List String) (res : ToolsResult),
      (paths.foldl (toolsFileStep stemF abspathF contents vp ss ns) res).warnings
        = res.warnings := by
  intro paths
  induction paths with
  | nil => intro res; rfl
  | cons p paths ih =>
    intro res
    rw [List.foldl_cons, ih, toolsFileStep_warnings]

theorem toolsDirStep_tools_cwl (stemF abspathF : String → String)
    (globF : String → List String) (contents : String → List (String × PyVal))
    (vp ss : Bool) (res : ToolsResult) (pr : String × String) :
    (toolsDirStep stemF abspathF globF contents vp ss res pr).tools_cwl
      = ((globF pr.2).map (fun p => (pr.1, p))).foldl
          (toolsCatStep stemF abspathF contents) res.tools_cwl := by
  unfold toolsDirStep
  rw [foldl_toolsFileStep_tools_cwl]
  by_cases h : (globF pr.2).length = 0 <;> simp [h]

theorem toolsDirStep_warnings (stemF abspathF : String → String)
    (globF : String → List String) (contents : String → List (String × PyVal))
    (vp ss : Bool) (res : ToolsResult) (pr : String × String) :
    (toolsDirStep stemF abspathF globF contents vp ss res pr).warnings
      = res.warnings ++ (if (globF pr.2).length = 0 then [pr.2] else []) := by
  unfold toolsDirStep
  rw [foldl_toolsFileStep_warnings]
  by_cases h : (globF pr.2).length = 0 <;> simp [h]

theorem foldl_toolsDirStep_tools_cwl (stemF abspathF : String → String)
    (globF : String → List String) (contents : String → List (String × PyVal))
    (vp ss : Bool) :
    ∀ (dirs : List (String × String)) (res : ToolsResult),
      (dirs.foldl (toolsDirStep stemF abspathF globF contents vp ss) res).tools_cwl
        = (allCwlFiles globF dirs).foldl (toolsCatStep stemF abspathF contents)
            res.tools_cwl := by
  intro dirs
  induction dirs with
  | nil => intro res; rfl
  | cons pr dirs ih =>
    intro res
    rw [List.foldl_cons, ih, allCwlFiles, List.foldl_append, toolsDirStep_tools_cwl]

theorem foldl_toolsDirStep_warnings (stemF abspathF : String → String)
    (globF : String → List String) (contents : String → List (String × PyVal))
    (vp ss : Bool) :
    ∀ (dirs : List (String × String)) (res : ToolsResult),
      (dirs.foldl (toolsDirStep stemF abspathF globF contents vp ss) res).warnings
        = res.warnings ++ emptyDirsWarnings globF dirs := by
  intro dirs
  induction dirs with
  | nil => intro res; simp [emptyDirsWarnings]
  | cons pr dirs ih =>
    intro res
    rw [List.foldl_cons, ih, toolsDirStep_warnings, emptyDirsWarnings,
      List.append_assoc]

theorem allCwlFiles_append (globF : String → List String) :
    ∀ (L1 L2 : List (String × String)),
      allCwlFiles globF (L1 ++ L2) = allCwlFiles globF L1 ++ allCwlFiles globF L2 := by
  intro L1 L2
  induction L1 with
  | nil => rfl
  | cons pr L1 ih =>
    rw [List.cons_append, allCwlFiles, allCwlFiles, ih, List.append_assoc]

theorem emptyDirsWarnings_mem (globF : String → List String) (ns d : String) :
    ∀ dirs : List (String × String), (ns, d) ∈ dirs → globF d = [] →
      d ∈ emptyDirsWarnings globF dirs := by
  intro dirs
  induction dirs with
  | nil => intro h _; simp at h
  | cons pr rest ih =>
    intro h hd
    rcases List.mem_cons.mp h with h1 | h1
    · rw [emptyDirsWarnings, ← h1]
      simp [hd]
    · rw [emptyDirsWarnings]
      exact List.mem_append.mpr (Or.inr (ih h1 hd))

/-- The effect of one registry pair on the workflow catalog alone. -/
def ymlMapStep (stemF abspathF : String → String) (globF : String → List String)
    (acc : List (String × List (String × String))) (pr : String × String) :
    List (String × List (String × String)) :=
  pyDictInsert acc pr.1
    (pyUnion ((pyLookup pr.1 acc).getD [])
      (ymlPerPairMap stemF abspathF (sortDescLen (globF pr.2))))

theorem ymlDirStep_yml_paths_all (stemF abspathF : String → String)
    (globF : String → List String) (res : YmlResult) (pr : String × String) :
    (ymlDirStep stemF abspathF globF res pr).yml_paths_all
      = ymlMapStep stemF abspathF globF res.yml_paths_all pr := by
  unfold ymlDirStep ymlMapStep
  by_cases h : (sortDescLen (globF pr.2)).length = 0 <;> simp [h]

theorem ymlDirStep_warnings (stemF abspathF : String → String)
    (globF : String → List String) (res : YmlResult) (pr : String × String) :
    (ymlDirStep stemF abspathF globF res pr).warnings
      = res.warnings ++ (if (globF pr.2).length = 0 then [pr.2] else []) := by
  unfold ymlDirStep
  by_cases h : (globF pr.2).length = 0 <;> simp [h, length_sortDescLen]

theorem foldl_ymlDirStep_yml_paths_all (stemF abspathF : String → String)
    (globF : String → List String) :
    ∀ (dirs : List (String × String)) (res : YmlResult),
      (dirs.foldl (ymlDirStep stemF abspathF globF) res).yml_paths_all
        = dirs.foldl (ymlMapStep stemF abspathF globF) res.yml_paths_all := by
  intro dirs
  induction dirs with
  | nil => intro res; rfl
  | cons pr dirs ih =>
    intro res
    rw [List.foldl_cons, ih, ymlDirStep_yml_paths_all, List.foldl_cons]

theorem foldl_ymlDirStep_warnings (stemF abspathF : String → String)
    (globF : String → List String) :
    ∀ (dirs : List (String × String)) (res : YmlResult),
      (dirs.foldl (ymlDirStep stemF abspathF globF) res).warnings
        = res.warnings ++ emptyDirsWarnings globF dirs := by
  intro dirs
  induction dirs with
  | nil => intro res; simp [emptyDirsWarnings]
  | cons pr dirs ih =>
    intro res
    rw [List.foldl_cons, ih, ymlDirStep_warnings, emptyDirsWarnings,
      List.append_assoc]

theorem nodupKeys_ymlPerPairMap (stemF abspathF : String → String)
    (paths : List String) : nodupKeys (ymlPerPairMap stemF abspathF paths) := by
  unfold ymlPerPairMap
  exact nodupKeys_foldl_pyDictInsert (fun p => containsSub "_inputs" p) stemF abspathF _
    (fun m x => rfl) paths [] nodupKeys_nil

theorem pyDictInsert_nil {κ β : Type} [DecidableEq κ] (k : κ) (v : β) :
    pyDictInsert [] k v = [(k, v)] := by
  simp [pyDictInsert]

theorem get_tools_cwl_tools_cwl (stemF abspathF : String → String)
    (globF : String → List String) (contents : String → List (String × PyVal))
    (vp ss : Bool) (dirs : List (String × String)) :
    (get_tools_cwl stemF abspathF globF contents vp ss dirs).tools_cwl
      = (allCwlFiles globF dirs).foldl (toolsCatStep stemF abspathF contents) [] := by
  unfold get_tools_cwl
  rw [foldl_toolsDirStep_tools_cwl]

theorem get_tools_cwl_warnings (stemF abspathF : String → String)
    (globF : String → List String) (contents : String → List (String × PyVal))
    (vp ss : Bool) (dirs : List (String × String)) :
    (get_tools_cwl stemF abspathF globF contents vp ss dirs).warnings
      = emptyDirsWarnings globF dirs := by
  unfold get_tools_cwl
  rw [foldl_toolsDirStep_warnings]
  simp

theorem get_yml_paths_all_eq (stemF abspathF : String → String)
    (globF : String → List String) (dirs : List (String × String)) :
    (get_yml_paths stemF abspathF globF dirs).yml_paths_all
      = dirs.foldl (ymlMapStep stemF abspathF globF) [] := by
  unfold get_yml_paths
  rw [foldl_ymlDirStep_yml_paths_all]

theorem get_yml_paths_warnings (stemF abspathF : String → String)
    (globF : String → List String) (dirs : List (String × String)) :
    (get_yml_paths stemF abspathF globF dirs).warnings
      = emptyDirsWarnings globF dirs := by
  unfold get_yml_paths
  rw [foldl_ymlDirStep_warnings]
  simp

theorem tools_catalog_lookup_char (stemF abspathF : String → String)
    (globF : String → List String) (contents : String → List (String × PyVal))
    (vp ss : Bool) (dirs : List (String × String)) (sid : StepId) :
    pyLookup sid (get_tools_cwl stemF abspathF globF contents vp ss dirs).tools_cwl
      = match lastMatchGen (fun pr : String × String => containsSub "biobb_md" pr.2)
              (fun pr : String × String => StepId.mk (stemF pr.2) pr.1) sid
              (allCwlFiles globF dirs) with
        | some pr => some (Tool.mk (abspathF pr.2) (mkToolDoc stemF contents pr.2))
        | Option.none => Option.none := by
  rw [get_tools_cwl_tools_cwl]
  have h := pyLookup_foldl_lastMatch
    (fun pr : String × String => containsSub "biobb_md" pr.2)
    (fun pr : String × String => StepId.mk (stemF pr.2) pr.1)
    (fun pr : String × String => Tool.mk (abspathF pr.2) (mkToolDoc stemF contents pr.2))
    (toolsCatStep stemF abspathF contents)
    (fun c pr => rfl) (allCwlFiles globF dirs) [] sid
  rw [h]
  cases lastMatchGen (fun pr : String × String => containsSub "biobb_md" pr.2)
      (fun pr : String × String => StepId.mk (stemF pr.2) pr.1) sid
      (allCwlFiles globF dirs) with
  | some pr => rfl
  | none => rfl

theorem tools_catalog_nodupKeys (stemF abspathF : String → String)
    (globF : String → List String) (contents : String → List (String × PyVal))
    (vp ss : Bool) (dirs : List (String × String)) :
    nodupKeys (get_tools_cwl stemF abspathF globF contents vp ss dirs).tools_cwl := by
  rw [get_tools_cwl_tools_cwl]
  exact nodupKeys_foldl_pyDictInsert
    (fun pr : String × String => containsSub "biobb_md" pr.2)
    (fun pr : String × String => StepId.mk (stemF pr.2) pr.1)
    (fun pr : String × String => Tool.mk (abspathF pr.2) (mkToolDoc stemF contents pr.2))
    (toolsCatStep stemF abspathF contents)
    (fun c pr => rfl) (allCwlFiles globF dirs) [] nodupKeys_nil

theorem mkToolDoc_stdout (stemF : String → String)
    (contents : String → List (String × PyVal)) (p : String) :
    pyLookup "stdout" (mkToolDoc stemF contents p)
      = some (PyVal.strv (stemF p ++ ".out")) := by
  unfold mkToolDoc
  rw [pyLookup_pyDictInsert_ne _ _ _ _ (by decide)]
  exact pyLookup_pyDictInsert_self _ _ _

theorem mkToolDoc_stderr (stemF : String → String)
    (contents : String → List (String × PyVal)) (p : String) :
    pyLookup "stderr" (mkToolDoc stemF contents p)
      = some (PyVal.strv (stemF p ++ ".err")) :=
  pyLookup_pyDictInsert_self _ _ _

/-! ## Claim C8 — StepId uniqueness and last-write-wins -/

/-- C8: the tool catalog keeps at most one entry per `StepId` (its key list
is duplicate-free), and the entry stored for each `StepId` is exactly the one
produced by the LAST discovered non-skipped file with that stem and namespace
in directory-processing order (`lastMatchGen` picks the last match of the
flattened discovery sequence `allCwlFiles`).  Since the directory list and
the glob oracle are universally quantified, every intermediate state of the
build is the final state of a truncated input, so the uniqueness invariant
holds at every point during the build as well. -/
theorem C8_tool_catalog_uniqueness_lww (stemF abspathF : String → String)
    (globF : String → List String) (contents : String → List (String × PyVal))
    (vp ss : Bool) (dirs : List (String × String)) :
    nodupKeys (get_tools_cwl stemF abspathF globF contents vp ss dirs).tools_cwl
    ∧ ∀ sid : StepId,
        pyLookup sid (get_tools_cwl stemF abspathF globF contents vp ss dirs).tools_cwl
          = match lastMatchGen (fun pr : String × String => containsSub "biobb_md" pr.2)
                  (fun pr : String × String => StepId.mk (stemF pr.2) pr.1) sid
                  (allCwlFiles globF dirs) with
            | some pr => some (Tool.mk (abspathF pr.2) (mkToolDoc stemF contents pr.2))
            | Option.none => Option.none :=
  ⟨tools_catalog_nodupKeys stemF abspathF globF contents vp ss dirs,
   fun sid => tools_catalog_lookup_char stemF abspathF globF contents vp ss dirs sid⟩

/-! ## Claim C4 — stdout/stderr are forced to `<stem>.out` / `<stem>.err` -/

/-- C4: every `Tool` stored in the returned catalog has its document's
`stdout` key equal to `<stem>.out` and `stderr` key equal to `<stem>.err`,
where `stem` is the stem field of its `StepId` — regardless of what the
source document contained. -/
theorem C4_stdout_stderr_forced (stemF abspathF : String → String)
    (globF : String → List String) (contents : String → List (String × PyVal))
    (vp ss : Bool) (dirs : List (String × String)) (sid : StepId) (tool : Tool)
    (h : pyLookup sid (get_tools_cwl stemF abspathF globF contents vp ss dirs).tools_cwl
          = some tool) :
    pyLookup "stdout" tool.cwl = some (PyVal.strv (sid.stem ++ ".out"))
    ∧ pyLookup "stderr" tool.cwl = some (PyVal.strv (sid.stem ++ ".err")) := by
  rw [tools_catalog_lookup_char] at h
  cases hm : lastMatchGen (fun pr : String × String => containsSub "biobb_md" pr.2)
      (fun pr : String × String => StepId.mk (stemF pr.2) pr.1) sid
      (allCwlFiles globF dirs) with
  | none =>
    rw [hm] at h
    exact absurd h (by simp)
  | some pr =>
    rw [hm] at h
    obtain ⟨hmem, hcond, hkey⟩ := lastMatchGen_eq_some_imp _ _ _ _ _ hm
    have hstem : sid.stem = stemF pr.2 := by rw [← hkey]
    injection h with h'
    rw [← h', hstem]
    exact ⟨mkToolDoc_stdout stemF contents pr.2, mkToolDoc_stderr stemF contents pr.2⟩

/-- Witness for C4: a source document already containing
`stdout: "old.log"` with stem `align` yields `stdout: "align.out"` and
`stderr: "align.err"` in the catalog. -/
theorem C4_stdout_stderr_forced_witness :
    pyLookup "stdout"
        (Tool.mk "align.cwl"
          [("stdout", PyVal.strv "align.out"), ("stderr", PyVal.strv "align.err")]).cwl
      = some (PyVal.strv ("align" ++ ".out"))
    ∧ pyLookup "stderr"
        (Tool.mk "align.cwl"
          [("stdout", PyVal.strv "align.out"), ("stderr", PyVal.strv "align.err")]).cwl
      = some (PyVal.strv ("align" ++ ".err")) :=
  C4_stdout_stderr_forced (fun _ => "align") (fun s => s) (fun _ => ["align.cwl"])
    (fun _ => [("stdout", PyVal.strv "old.log")]) false false [("global", "d")]
    (StepId.mk "align" "global")
    (Tool.mk "align.cwl"
      [("stdout", PyVal.strv "align.out"), ("stderr", PyVal.strv "align.err")])
    (by decide)

/-! ## Claim C3 — the skip-schemas flag reaches `validate_cwl` but is dropped

The claim says the flag is "actually passed through to (and can affect) the
validation".  `get_tools_cwl` does invoke `validate_cwl` with
`(path, skip_schemas)` (first conjunct), but `validate_cwl` never forwards
the flag to the cwltool calls — line 52 of plugins.py,
`loading_context.skip_schemas = skip_schemas`, is commented out — so the
call sequence is identical for both flag values and the flag cannot affect
the validation.  This contradicts `validate_cwl`'s own docstring ("exposes
skip_schemas for performance"): a code bug. -/
theorem C3_skip_schemas_dropped :
    (get_tools_cwl (fun p => p) (fun p => p) (fun _ => ["d/a.cwl"]) (fun _ => [])
        true true [("global", "d")]).validate_calls
      = [("d/a.cwl", true)]
    ∧ (∀ (p : String) (b1 b2 : Bool), validate_cwl p b1 = validate_cwl p b2)
    ∧ validate_cwl "d/a.cwl" true = validate_cwl "d/a.cwl" false :=
  ⟨by decide, fun p b1 b2 => rfl, rfl⟩

/-! ## Claim C1 — workflow-catalog collisions: the shorter path wins -/

/-- C1: within one `(namespace, directory)` registry pair, when the glob
yields two non-excluded files `p` and `q` with the same stem and
`q`'s full path strictly shorter than `p`'s (and no other file shares that
stem), the final workflow-catalog entry for that stem is the absolute path
of the shorter-path file `q`, wherever `p` and `q` sit in glob
(discovery) order. -/
theorem C1_yml_collision_shorter_path_wins (stemF abspathF : String → String)
    (globF : String → List String) (ns d p q : String)
    (hp : p ∈ globF d) (hq : q ∈ globF d)
    (hstem : stemF p = stemF q)
    (hlen : q.length < p.length)
    (hpin : containsSub "_inputs" p = false)
    (hqin : containsSub "_inputs" q = false)
    (honly : ∀ r ∈ globF d, containsSub "_inputs" r = false → stemF r = stemF q →
        r = p ∨ r = q) :
    pyLookup (stemF q)
        ((pyLookup ns (get_yml_paths stemF abspathF globF [(ns, d)]).yml_paths_all).getD [])
      = some (abspathF q) := by
  have hnd := nodupKeys_ymlPerPairMap stemF abspathF (sortDescLen (globF d))
  have hns : (get_yml_paths stemF abspathF globF [(ns, d)]).yml_paths_all
      = [(ns, ymlPerPairMap stemF abspathF (sortDescLen (globF d)))] := by
    rw [get_yml_paths_all_eq, List.foldl_cons, List.foldl_nil]
    unfold ymlMapStep
    rw [show (pyLookup ns ([] : List (String × List (String × String)))).getD [] = []
      from rfl]
    rw [pyUnion_nil_left _ hnd, pyDictInsert_nil]
  rw [hns]
  rw [show (pyLookup ns [(ns, ymlPerPairMap stemF abspathF (sortDescLen (globF d)))]).getD []
      = ymlPerPairMap stemF abspathF (sortDescLen (globF d)) by simp [pyLookup]]
  unfold ymlPerPairMap
  rw [pyLookup_foldl_lastMatch (fun r => containsSub "_inputs" r) stemF abspathF _
    (fun m x => rfl) (sortDescLen (globF d)) [] (stemF q)]
  rw [lastMatchGen_sorted_shorter (fun r => containsSub "_inputs" r) stemF (stemF q) p q
    hlen hqin rfl (sortDescLen (globF d)) (pairwise_sortDescLen (globF d))
    ((mem_sortDescLen q (globF d)).mpr hq)
    (fun r hr => honly r ((mem_sortDescLen r (globF d)).mp hr))]

/-- Witness for C1: directory contents `["a/b/foo.yml", "foo.yml"]` (longer
path discovered first) — the catalog maps stem `foo` to the absolute path
of the shorter `foo.yml`. -/
theorem C1_yml_collision_shorter_path_wins_witness :
    pyLookup "foo"
        ((pyLookup "n"
          (get_yml_paths (fun _ => "foo") (fun s => "/abs/" ++ s)
            (fun _ => ["a/b/foo.yml", "foo.yml"]) [("n", "d")]).yml_paths_all).getD [])
      = some "/abs/foo.yml" :=
  C1_yml_collision_shorter_path_wins (fun _ => "foo") (fun s => "/abs/" ++ s)
    (fun _ => ["a/b/foo.yml", "foo.yml"]) "n" "d" "a/b/foo.yml" "foo.yml"
    (by decide) (by decide) rfl (by decide) (by decide) (by decide) (by decide)

/-! ## Claim C7 — namespace merge is a key union that preserves non-colliding entries -/

/-- C7: a namespace split across two registry lines ends up with the plain
key union `{**m1, **m2}` of the two per-pair maps; the union returns `m2`'s
entry exactly on stems `m2` contains, and on every other stem it preserves
`m1`'s entry unchanged — no non-colliding entry of an earlier line is lost. -/
theorem C7_yml_namespace_merge_frame (stemF abspathF : String → String)
    (globF : String → List String) (ns d1 d2 s : String) :
    pyLookup ns (get_yml_paths stemF abspathF globF [(ns, d1), (ns, d2)]).yml_paths_all
      = some (pyUnion (ymlPerPairMap stemF abspathF (sortDescLen (globF d1)))
                      (ymlPerPairMap stemF abspathF (sortDescLen (globF d2))))
    ∧ (∀ v : String,
        pyLookup s (ymlPerPairMap stemF abspathF (sortDescLen (globF d2))) = some v →
        pyLookup s (pyUnion (ymlPerPairMap stemF abspathF (sortDescLen (globF d1)))
                            (ymlPerPairMap stemF abspathF (sortDescLen (globF d2))))
          = some v)
    ∧ (pyLookup s (ymlPerPairMap stemF abspathF (sortDescLen (globF d2))) = Option.none →
        pyLookup s (pyUnion (ymlPerPairMap stemF abspathF (sortDescLen (globF d1)))
                            (ymlPerPairMap stemF abspathF (sortDescLen (globF d2))))
          = pyLookup s (ymlPerPairMap stemF abspathF (sortDescLen (globF d1)))) := by
  have hnd1 := nodupKeys_ymlPerPairMap stemF abspathF (sortDescLen (globF d1))
  have hnd2 := nodupKeys_ymlPerPairMap stemF abspathF (sortDescLen (globF d2))
  have hchar := pyLookup_pyUnion_nodup
    (ymlPerPairMap stemF abspathF (sortDescLen (globF d1)))
    (ymlPerPairMap stemF abspathF (sortDescLen (globF d2))) hnd1 hnd2 s
  refine ⟨?_, ?_, ?_⟩
  · rw [get_yml_paths_all_eq, List.foldl_cons, List.foldl_cons, List.foldl_nil]
    have h1 : ymlMapStep stemF abspathF globF [] (ns, d1)
        = [(ns, ymlPerPairMap stemF abspathF (sortDescLen (globF d1)))] := by
      unfold ymlMapStep
      rw [show (pyLookup ns ([] : List (String × List (String × String)))).getD [] = []
        from rfl]
      rw [pyUnion_nil_left _ hnd1, pyDictInsert_nil]
    rw [h1]
    unfold ymlMapStep
    rw [show (pyLookup ns
        [(ns, ymlPerPairMap stemF abspathF (sortDescLen (globF d1)))]).getD []
      = ymlPerPairMap stemF abspathF (sortDescLen (globF d1)) by simp [pyLookup]]
    rw [show pyDictInsert
        [(ns, ymlPerPairMap stemF abspathF (sortDescLen (globF d1)))] ns
        (pyUnion (ymlPerPairMap stemF abspathF (sortDescLen (globF d1)))
                 (ymlPerPairMap stemF abspathF (sortDescLen (globF d2))))
      = [(ns, pyUnion (ymlPerPairMap stemF abspathF (sortDescLen (globF d1)))
                      (ymlPerPairMap stemF abspathF (sortDescLen (globF d2))))] by
      simp [pyDictInsert]]
    simp [pyLookup]
  · intro v hv
    rw [hchar, hv]
  · intro hnone
    rw [hchar, hnone]

/-- Witness for C7: namespace `n` split across directories `d1` (with stems
`foo` and `bar`) and `d2` (with stem `foo` only): the non-colliding `bar`
entry from the first line survives the merge unchanged. -/
theorem C7_yml_namespace_merge_frame_witness :
    pyLookup "bar"
        (pyUnion
          (ymlPerPairMap
            (fun pth => if pth = "x/bar.yml" then "bar" else "foo") (fun pth => pth)
            (sortDescLen ((fun dd => if dd = "d1" then ["x/foo.yml", "x/bar.yml"]
                           else ["y/foo.yml"]) "d1")))
          (ymlPerPairMap
            (fun pth => if pth = "x/bar.yml" then "bar" else "foo") (fun pth => pth)
            (sortDescLen ((fun dd => if dd = "d1" then ["x/foo.yml", "x/bar.yml"]
                           else ["y/foo.yml"]) "d2"))))
      = some "x/bar.yml" :=
  ((C7_yml_namespace_merge_frame
      (fun pth => if pth = "x/bar.yml" then "bar" else "foo") (fun pth => pth)
      (fun dd => if dd = "d1" then ["x/foo.yml", "x/bar.yml"] else ["y/foo.yml"])
      "n" "d1" "d2" "bar").2.2 (by decide)).trans (by decide)

/-! ## Claim C9 — zero-match directories: warning, empty contribution, continue -/

/-- Every value stored in the workflow catalog has duplicate-free keys. -/
def allValsNodup (acc : List (String × List (String × String))) : Prop :=
  ∀ kv ∈ acc, nodupKeys kv.2

theorem ymlMapStep_allValsNodup (stemF abspathF : String → String)
    (globF : String → List String) (acc : List (String × List (String × String)))
    (pr : String × String) (h : allValsNodup acc) :
    allValsNodup (ymlMapStep stemF abspathF globF acc pr) := by
  intro kv hkv
  rcases mem_pyDictInsert _ _ _ _ hkv with h1 | h1
  · rw [h1]
    exact nodupKeys_pyUnion _ _
  · exact h kv h1

theorem foldl_ymlMapStep_allValsNodup (stemF abspathF : String → String)
    (globF : String → List String) (dirs : List (String × String)) :
    allValsNodup (dirs.foldl (ymlMapStep stemF abspathF globF) []) :=
  foldl_preserve allValsNodup _
    (fun b a hb => ymlMapStep_allValsNodup stemF abspathF globF b a hb) dirs []
    (by intro kv hkv; simp at hkv)

theorem ymlMapStep_getD_congr (stemF abspathF : String → String)
    (globF : String → List String) (a b : List (String × List (String × String)))
    (pr : String × String)
    (hR : ∀ k, (pyLookup k a).getD [] = (pyLookup k b).getD []) :
    ∀ k, (pyLookup k (ymlMapStep stemF abspathF globF a pr)).getD []
        = (pyLookup k (ymlMapStep stemF abspathF globF b pr)).getD [] := by
  intro k
  by_cases hk : k = pr.1
  · subst hk
    unfold ymlMapStep
    rw [pyLookup_pyDictInsert_self, pyLookup_pyDictInsert_self]
    simp [hR pr.1]
  · unfold ymlMapStep
    rw [pyLookup_pyDictInsert_ne _ _ _ _ hk, pyLookup_pyDictInsert_ne _ _ _ _ hk]
    exact hR k

theorem foldl_ymlMapStep_getD_congr (stemF abspathF : String → String)
    (globF : String → List String) :
    ∀ (L : List (String × String)) (a b : List (String × List (String × String))),
      (∀ k, (pyLookup k a).getD [] = (pyLookup k b).getD []) →
      ∀ k, (pyLookup k (L.foldl (ymlMapStep stemF abspathF globF) a)).getD []
          = (pyLookup k (L.foldl (ymlMapStep stemF abspathF globF) b)).getD [] := by
  intro L
  induction L with
  | nil => intro a b h k; exact h k
  | cons pr L ih =>
    intro a b h k
    rw [List.foldl_cons, List.foldl_cons]
    exact ih _ _ (ymlMapStep_getD_congr stemF abspathF globF a b pr h) k

theorem ymlMapStep_empty_getD (stemF abspathF : String → String)
    (globF : String → List String) (acc : List (String × List (String × String)))
    (ns d : String) (hd : globF d = []) (hvals : allValsNodup acc) :
    ∀ k, (pyLookup k (ymlMapStep stemF abspathF globF acc (ns, d))).getD []
        = (pyLookup k acc).getD [] := by
  intro k
  have hm : ymlPerPairMap stemF abspathF (sortDescLen (globF d)) = [] := by
    rw [hd]
    rfl
  have hx : nodupKeys ((pyLookup ns acc).getD ([] : List (String × String))) := by
    cases hl : pyLookup ns acc with
    | none => exact nodupKeys_nil
    | some v => exact hvals (ns, v) (pyLookup_mem acc ns v hl)
  by_cases hk : k = ns
  · subst hk
    unfold ymlMapStep
    rw [pyLookup_pyDictInsert_self]
    simp only [Option.getD_some]
    rw [hm, pyUnion_nil_right _ hx]
  · unfold ymlMapStep
    rw [pyLookup_pyDictInsert_ne _ _ _ _ hk]

/-- C9: a registry pair whose glob matches nothing makes both builders emit
the corresponding directory warning; the pair contributes nothing to the tool
catalog and an empty sub-map to the workflow catalog (every namespace's
contents, reading an absent entry as empty, are as if the pair were not
there), the namespace still gets a catalog entry, and the remaining pairs
are processed exactly as before.  The embedding is total, so no exception is
possible for this condition. -/
theorem C9_zero_match_behavior (stemF abspathF : String → String)
    (globF : String → List String) (contents : String → List (String × PyVal))
    (vp ss : Bool) (ns d : String) (dirs1 dirs2 : List (String × String))
    (hd : globF d = []) :
    d ∈ (get_tools_cwl stemF abspathF globF contents vp ss
          (dirs1 ++ (ns, d) :: dirs2)).warnings
    ∧ d ∈ (get_yml_paths stemF abspathF globF (dirs1 ++ (ns, d) :: dirs2)).warnings
    ∧ (get_tools_cwl stemF abspathF globF contents vp ss
          (dirs1 ++ (ns, d) :: dirs2)).tools_cwl
        = (get_tools_cwl stemF abspathF globF contents vp ss (dirs1 ++ dirs2)).tools_cwl
    ∧ (∀ k : String,
        (pyLookup k (get_yml_paths stemF abspathF globF
          (dirs1 ++ (ns, d) :: dirs2)).yml_paths_all).getD []
          = (pyLookup k (get_yml_paths stemF abspathF globF
              (dirs1 ++ dirs2)).yml_paths_all).getD [])
    ∧ (pyLookup ns (get_yml_paths stemF abspathF globF
          (dirs1 ++ (ns, d) :: dirs2)).yml_paths_all).isSome = true := by
  refine ⟨?_, ?_, ?_, ?_, ?_⟩
  · rw [get_tools_cwl_warnings]
    exact emptyDirsWarnings_mem globF ns d _ (by simp) hd
  · rw [get_yml_paths_warnings]
    exact emptyDirsWarnings_mem globF ns d _ (by simp) hd
  · rw [get_tools_cwl_tools_cwl, get_tools_cwl_tools_cwl,
      allCwlFiles_append, allCwlFiles_append]
    rw [show allCwlFiles globF ((ns, d) :: dirs2) = allCwlFiles globF dirs2 by
      rw [allCwlFiles]
      rw [show ((ns, d).2 : String) = d from rfl, hd]
      rfl]
  · intro k
    rw [get_yml_paths_all_eq, get_yml_paths_all_eq, List.foldl_append,
      List.foldl_append, List.foldl_cons]
    exact foldl_ymlMapStep_getD_congr stemF abspathF globF dirs2 _ _
      (ymlMapStep_empty_getD stemF abspathF globF _ ns d hd
        (foldl_ymlMapStep_allValsNodup stemF abspathF globF dirs1)) k
  · rw [get_yml_paths_all_eq, List.foldl_append, List.foldl_cons]
    apply foldl_preserve (fun m => (pyLookup ns m).isSome = true)
      (ymlMapStep stemF abspathF globF) ?_ dirs2 _ ?_
    · intro b a hb
      unfold ymlMapStep
      exact pyLookup_isSome_pyDictInsert _ _ _ _ hb
    · unfold ymlMapStep
      rw [pyLookup_pyDictInsert_self]
      rfl

/-- Witness for C9 at a concrete registry: pair `("n1", "empty")` globs to
nothing, pair `("n2", "w")` to one file. -/
theorem C9_zero_match_behavior_witness :
    "empty" ∈ (get_tools_cwl (fun pth => pth) (fun pth => pth)
        (fun dd => if dd = "empty" then [] else ["w/a.yml"]) (fun _ => [])
        false false [("n1", "empty"), ("n2", "w")]).warnings
    ∧ "empty" ∈ (get_yml_paths (fun pth => pth) (fun pth => pth)
        (fun dd => if dd = "empty" then [] else ["w/a.yml"])
        [("n1", "empty"), ("n2", "w")]).warnings
    ∧ (get_tools_cwl (fun pth => pth) (fun pth => pth)
        (fun dd => if dd = "empty" then [] else ["w/a.yml"]) (fun _ => [])
        false false [("n1", "empty"), ("n2", "w")]).tools_cwl
      = (get_tools_cwl (fun pth => pth) (fun pth => pth)
          (fun dd => if dd = "empty" then [] else ["w/a.yml"]) (fun _ => [])
          false false [("n2", "w")]).tools_cwl
    ∧ (pyLookup "n2" (get_yml_paths (fun pth => pth) (fun pth => pth)
        (fun dd => if dd = "empty" then [] else ["w/a.yml"])
        [("n1", "empty"), ("n2", "w")]).yml_paths_all).getD []
      = (pyLookup "n2" (get_yml_paths (fun pth => pth) (fun pth => pth)
          (fun dd => if dd = "empty" then [] else ["w/a.yml"])
          [("n2", "w")]).yml_paths_all).getD []
    ∧ (pyLookup "n1" (get_yml_paths (fun pth => pth) (fun pth => pth)
        (fun dd => if dd = "empty" then [] else ["w/a.yml"])
        [("n1", "empty"), ("n2", "w")]).yml_paths_all).isSome = true :=
  ⟨(C9_zero_match_behavior (fun pth => pth) (fun pth => pth)
      (fun dd => if dd = "empty" then [] else ["w/a.yml"]) (fun _ => [])
      false false "n1" "empty" [] [("n2", "w")] (by decide)).1,
   (C9_zero_match_behavior (fun pth => pth) (fun pth => pth)
      (fun dd => if dd = "empty" then [] else ["w/a.yml"]) (fun _ => [])
      false false "n1" "empty" [] [("n2", "w")] (by decide)).2.1,
   (C9_zero_match_behavior (fun pth => pth) (fun pth => pth)
      (fun dd => if dd = "empty" then [] else ["w/a.yml"]) (fun _ => [])
      false false "n1" "empty" [] [("n2", "w")] (by decide)).2.2.1,
   (C9_zero_match_behavior (fun pth => pth) (fun pth => pth)
      (fun dd => if dd = "empty" then [] else ["w/a.yml"]) (fun _ => [])
      false false "n1" "empty" [] [("n2", "w")] (by decide)).2.2.2.1 "n2",
   (C9_zero_match_behavior (fun pth => pth) (fun pth => pth)
      (fun dd => if dd = "empty" then [] else ["w/a.yml"]) (fun _ => [])
      false false "n1" "empty" [] [("n2", "w")] (by decide)).2.2.2.2⟩

end Wic
